import Mathlib

/-!
Verification development for the trolley-price-scraper repository.

The scraper (src/scraper.py, class TrolleyScraper) fetches a search page,
locates product containers, and extracts product records via regex
heuristics.  We embed the extraction pipeline shallowly: strings are lists
of character codes (Nat), DOM nodes are records holding exactly the data
the Python code reads from them, and each regex is translated into the
deterministic matching function it denotes (Python `re` semantics on the
concrete patterns used, restricted to the ASCII behaviour the patterns
exercise).
-/

/-- Strings are modelled as lists of Unicode code points. -/
abbrev Str := List Nat

/-- Code points of a Lean string literal. -/
def str (s : String) : Str := s.data.map Char.toNat

/-- Apostrophe code point (39), kept as a named constant. -/
def apos : Nat := 39

/-- ASCII whitespace, as matched by Python `str.strip` and `\s`. -/
def isWsN (c : Nat) : Bool := c == 32 || c == 9 || c == 10 || c == 13 || c == 11 || c == 12

/-- ASCII decimal digit, as matched by `\d` on the scraper's inputs. -/
def isDigitN (c : Nat) : Bool := decide (48 ≤ c ∧ c ≤ 57)

/-- ASCII letter: what `[A-Z]`/`[a-z]` match under `re.IGNORECASE`. -/
def isAlphaN (c : Nat) : Bool := decide ((65 ≤ c ∧ c ≤ 90) ∨ (97 ≤ c ∧ c ≤ 122))

/-- ASCII lower-casing of one code point (Python `str.lower` on ASCII). -/
def lowerN (c : Nat) : Nat := if 65 ≤ c ∧ c ≤ 90 then c + 32 else c

/-- ASCII upper-casing of one code point (Python `str.upper` on ASCII). -/
def upperN (c : Nat) : Nat := if 97 ≤ c ∧ c ≤ 122 then c - 32 else c

/-- Python `str.lower` on a whole string. -/
def lowerStr (s : Str) : Str := s.map lowerN

/-- Python `str.strip`: drop whitespace from both ends. -/
def stripStr (s : Str) : Str := ((s.dropWhile isWsN).reverse.dropWhile isWsN).reverse

/-- Python substring test `pat in s`. -/
def containsSub : Str → Str → Bool
  | [], pat => pat.isEmpty
  | c :: t, pat => pat.isPrefixOf (c :: t) || containsSub t pat

/-- Python `s.find(pat)`: index of the first occurrence, if any. -/
def findSub : Str → Str → Option Nat
  | [], pat => if pat.isEmpty then some 0 else none
  | c :: t, pat =>
    if pat.isPrefixOf (c :: t) then some 0
    else (findSub t pat).map (· + 1)

/-- Python `str.title` on ASCII: a letter after a non-letter is upper-cased,
a letter after a letter is lower-cased. -/
def pyTitleGo : Bool → Str → Str
  | _, [] => []
  | prev, c :: cs =>
    (if isAlphaN c then (if prev then lowerN c else upperN c) else c) :: pyTitleGo (isAlphaN c) cs

/-- Python `str.title`. -/
def pyTitle (s : Str) : Str := pyTitleGo false s

/-- One step of `re.sub` with pattern whitespace-run: collapse each maximal
whitespace run to a single space (the scraper then strips the ends). -/
def collapseWsAux : Bool → Str → Str
  | _, [] => []
  | prevWs, c :: cs =>
    if isWsN c then
      (if prevWs then collapseWsAux true cs else 32 :: collapseWsAux true cs)
    else c :: collapseWsAux false cs

/-- `re.sub` of the whitespace-run pattern by a single space. -/
def collapseWs (s : Str) : Str := collapseWsAux false s

/-- Leftmost-match scanner: try a matcher at every position, left to right.
This is how `re.search` locates the leftmost match of an anchored matcher. -/
def searchAt (f : Str → Option Str) : Str → Option Str
  | [] => f []
  | c :: t =>
    match f (c :: t) with
    | some m => some m
    | none => searchAt f t

/-- Anchored match of the price pattern (pound sign 163, one or more digits,
a dot, one or more digits) at the head of the string; returns the matched
text.  Both digit runs are greedy, which is determined by the pattern. -/
def priceAt : Str → Option Str
  | [] => none
  | c :: rest =>
    if c = 163 then
      let ds := rest.takeWhile isDigitN
      if ds.isEmpty then none
      else
        match rest.drop ds.length with
        | d :: t =>
          if d = 46 then
            let fs := t.takeWhile isDigitN
            if fs.isEmpty then none else some (c :: ds ++ d :: fs)
          else none
        | [] => none
    else none

/-- `re.search` of the price pattern: leftmost match. -/
def searchPrice (s : Str) : Option Str := searchAt priceAt s

/-- The scraper's sentinel for a missing price. -/
def priceSentinel : Str := str "Price not available"

/-- Fallback price scan over the texts of the price-flavoured sub-elements
(selectors with class containing price, then .price, then .cost): the first
element that exists and whose text contains a price match wins; an element
with no price match does not stop the scan. -/
def fallbackPrice : List (Option Str) → Str
  | [] => priceSentinel
  | none :: rest => fallbackPrice rest
  | some t :: rest =>
    match searchPrice t with
    | some p => p
    | none => fallbackPrice rest

/-- The size-unit alternatives of the size pattern, in pattern order. -/
def sizeUnits : List Str := [str "g", str "kg", str "ml", str "l", str "oz", str "lb"]

/-- First unit alternative that is a case-insensitive prefix; returns the
actually matched slice of the input. -/
def unitAtGo : List Str → Str → Option Str
  | [], _ => none
  | u :: us, s =>
    if (lowerStr u).isPrefixOf (lowerStr s) then some (s.take u.length) else unitAtGo us s

/-- Anchored match of the size pattern: digits, optional dot-digits
fraction, then a unit from `sizeUnits`, case-insensitively. -/
def matchSize (s : Str) : Option Str :=
  let ds := s.takeWhile isDigitN
  if ds.isEmpty then none
  else
    let r1 := s.drop ds.length
    let fr : Str × Str :=
      match r1 with
      | 46 :: t =>
        let fs := t.takeWhile isDigitN
        if fs.isEmpty then ([], r1) else (46 :: fs, t.drop fs.length)
      | _ => ([], r1)
    match unitAtGo sizeUnits fr.2 with
    | some u => some (ds ++ fr.1 ++ u)
    | none => none

/-- The known-brand literal alternatives, in the source's priority order. -/
def brandLiterals : List Str :=
  [str "Hovis", str "Warburtons", str "Kingsmill", str "Mother Pride",
   str "Allinson", str "Brennans"]

/-- First brand literal that matches case-insensitively at the start of the
name; returns the matched slice of the input. -/
def matchBrandLit : List Str → Str → Option Str
  | [], _ => none
  | lit :: rest, s =>
    if (lowerStr lit).isPrefixOf (lowerStr s) then some (s.take lit.length)
    else matchBrandLit rest s

/-- Anchored match of the generic brand pattern.  The source applies it with
`re.IGNORECASE`, so both character classes match any ASCII letter: the
pattern captures a maximal run of at least two letters, optionally followed
by a whitespace run and a second such letter run. -/
def matchBrandGeneric (s : Str) : Option Str :=
  let w1 := s.takeWhile isAlphaN
  if w1.length < 2 then none
  else
    let r1 := s.drop w1.length
    let ws := r1.takeWhile isWsN
    if ws.isEmpty then some w1
    else
      let w2 := (r1.drop ws.length).takeWhile isAlphaN
      if w2.length < 2 then some w1 else some (w1 ++ ws ++ w2)

/-- Brand extraction: the literal list is tried first, then the generic
pattern (the source iterates the two patterns in this order). -/
def matchBrand (s : Str) : Option Str :=
  match matchBrandLit brandLiterals s with
  | some b => some b
  | none => matchBrandGeneric s

/-- The scraper's `store_mappings` dictionary, in insertion order (Python
dict iteration order): lowercase retailer keyword to canonical name. -/
def storeMappings : List (Str × Str) :=
  [(str "tesco", str "Tesco"), (str "asda", str "ASDA"),
   (str "sainsburys", str "Sainsbury" ++ apos :: str "s"),
   (str "morrisons", str "Morrisons"), (str "waitrose", str "Waitrose"),
   (str "iceland", str "Iceland"), (str "aldi", str "Aldi"),
   (str "lidl", str "Lidl"), (str "coop", str "Co-op"),
   (str "marks", str "M&S"), (str "ocado", str "Ocado")]

/-- First store-mapping key contained in the given lowered text, returning
its canonical name (the `for store_key, store_name in ...: if store_key in
...` loops of methods 3 to 6 and of `_normalize_store_name`). -/
def lookupStoreKey (l : Str) : List (Str × Str) → Option Str
  | [] => none
  | kv :: rest => if containsSub l kv.1 then some kv.2 else lookupStoreKey l rest

/-- `_normalize_store_name`: try the mapping keys against the lowered,
stripped text (the source's store-name-lower binding); otherwise
title-case the raw text. -/
def normalizeStoreName (storeName : Str) : Str :=
  match lookupStoreKey (stripStr (lowerStr storeName)) storeMappings with
  | some v => v
  | none => pyTitle storeName

/-- Anchored matcher for the first store pattern (sainsbury, an optional
apostrophe, then s), on lowered text; returns the matched text. -/
def sainsburyAt (s : Str) : Option Str :=
  if (str "sainsbury").isPrefixOf s then
    match s.drop 9 with
    | c :: rest =>
      if c = 115 then some (str "sainsburys")
      else if c = apos then
        match rest with
        | d :: _ => if d = 115 then some (str "sainsbury" ++ [apos, 115]) else none
        | [] => none
      else none
    | [] => none
  else none

/-- Anchored matcher for a literal store pattern on lowered text. -/
def litAt (lit : Str) (s : Str) : Option Str :=
  if lit.isPrefixOf s then some lit else none

/-- Anchored matcher for the co-op pattern (co, optional hyphen, op). -/
def coopAt (s : Str) : Option Str :=
  if (str "co").isPrefixOf s then
    match s.drop 2 with
    | 45 :: r2 => if (str "op").isPrefixOf r2 then some (str "co-op") else none
    | r => if (str "op").isPrefixOf r then some (str "coop") else none
  else none

/-- The tail of the marks-and-spencer pattern after the mark(s) head: a
whitespace run, an optional ampersand, a whitespace run, then spencer.
The parse of this region is forced by the text, so no backtracking is
needed; returns the matched text. -/
def sepSpencer (s : Str) : Option Str :=
  let w1 := s.takeWhile isWsN
  let r1 := s.drop w1.length
  match r1 with
  | 38 :: r2 =>
    let w2 := r2.takeWhile isWsN
    let r3 := r2.drop w2.length
    if (str "spencer").isPrefixOf r3 then some (w1 ++ 38 :: (w2 ++ str "spencer"))
    else none
  | _ => if (str "spencer").isPrefixOf r1 then some (w1 ++ str "spencer") else none

/-- Anchored matcher for the marks-and-spencer pattern: mark, an optional
greedy s (with backtracking when taking it makes the rest fail), then
`sepSpencer`. -/
def marksAt (s : Str) : Option Str :=
  if (str "mark").isPrefixOf s then
    let r := s.drop 4
    match r with
    | 115 :: r2 =>
      match sepSpencer r2 with
      | some m => some (str "marks" ++ m)
      | none => (sepSpencer r).map (fun m => str "mark" ++ m)
    | _ => (sepSpencer r).map (fun m => str "mark" ++ m)
  else none

/-- The eleven store patterns of method 1, in source order, each as a
leftmost-match search over the lowered container text. -/
def storePatterns : List (Str → Option Str) :=
  [searchAt sainsburyAt, searchAt (litAt (str "tesco")), searchAt (litAt (str "asda")),
   searchAt (litAt (str "waitrose")), searchAt (litAt (str "morrisons")),
   searchAt (litAt (str "iceland")), searchAt (litAt (str "aldi")),
   searchAt (litAt (str "lidl")), searchAt coopAt, searchAt marksAt,
   searchAt (litAt (str "m&s"))]

/-- The normalisation dispatch applied to a (lowered) matched store pattern
text; `none` means the dispatch chain falls through and the pattern loop
continues with the next pattern. -/
def dispatchStoreFound (f : Str) : Option Str :=
  if containsSub f (str "sainsbury") then some (str "Sainsbury" ++ apos :: str "s")
  else if containsSub f (str "tesco") then some (str "Tesco")
  else if containsSub f (str "asda") then some (str "ASDA")
  else if containsSub f (str "waitrose") then some (str "Waitrose")
  else if containsSub f (str "morrisons") then some (str "Morrisons")
  else if containsSub f (str "iceland") then some (str "Iceland")
  else if containsSub f (str "aldi") then some (str "Aldi")
  else if containsSub f (str "lidl") then some (str "Lidl")
  else if containsSub f (str "co") && containsSub f (str "op") then some (str "Co-op")
  else if containsSub f (str "marks") || containsSub f (str "m&s") then some (str "Marks & Spencer")
  else none

/-- The method-1 pattern loop: first pattern whose match dispatches to a
store name wins; a pattern that matches but does not dispatch is skipped. -/
def method1Go (lt : Str) : List (Str → Option Str) → Option Str
  | [] => none
  | p :: ps =>
    match (p lt).bind dispatchStoreFound with
    | some s => some s
    | none => method1Go lt ps

/-- Method 1 of `_extract_store_name`: retailer patterns over the node's
visible text, case-insensitively. -/
def method1 (t : Str) : Option Str := method1Go (lowerStr t) storePatterns

/-- An anchor element: its stripped visible text and its href attribute. -/
structure Anchor where
  text : Str
  href : Str
deriving DecidableEq, Repr

/-- One product container node, holding exactly the data `scraper.py` reads
from it: the first anchor having an href; the stripped texts of the three
price-selector sub-elements; the stripped texts of the seven store-selector
sub-elements; the alt text of the first img (empty when the attribute is
missing, `none` when there is no img); the node's string-valued attribute
values in iteration order; and the node's full visible text. -/
structure Container where
  anchor : Option Anchor
  priceTexts : List (Option Str)
  storeTexts : List (Option Str)
  imgAlt : Option Str
  attrValues : List Str
  text : Str
deriving DecidableEq, Repr

/-- Method 2: first store-selector sub-element that exists and has
non-empty text, normalised. -/
def method2 : List (Option Str) → Option Str
  | [] => none
  | none :: rest => method2 rest
  | some t :: rest => if t.isEmpty then method2 rest else some (normalizeStoreName t)

/-- Method 3: mapping keys against the lowered anchor href (skipped when
there is no anchor or the href is empty). -/
def method3 : Option Anchor → Option Str
  | none => none
  | some a => if a.href.isEmpty then none else lookupStoreKey (lowerStr a.href) storeMappings

/-- Method 4: mapping keys against the lowered alt text of the first img. -/
def method4 : Option Str → Option Str
  | none => none
  | some alt => lookupStoreKey (lowerStr alt) storeMappings

/-- Method 5: mapping keys against each lowered string attribute value. -/
def method5 : List Str → Option Str
  | [] => none
  | v :: rest =>
    match lookupStoreKey (lowerStr v) storeMappings with
    | some s => some s
    | none => method5 rest

/-- Method 6: mapping keys against the node's full lowered text. -/
def method6 (t : Str) : Option Str := lookupStoreKey (lowerStr t) storeMappings

/-- `_extract_store_name`: the six methods in priority order, then the
fixed fallback name. -/
def extractStoreName (c : Container) : Str :=
  match method1 c.text with
  | some s => s
  | none =>
    match method2 c.storeTexts with
    | some s => s
    | none =>
      match method3 c.anchor with
      | some s => s
      | none =>
        match method4 c.imgAlt with
        | some s => s
        | none =>
          match method5 c.attrValues with
          | some s => s
          | none =>
            match method6 c.text with
            | some s => s
            | none => str "Trolley.co.uk"

/-- The canonical store names the resolver's lookup paths can produce: the
method-1 dispatch targets, the mapping values, and the fixed fallback. -/
def knownStoreNames : List Str :=
  [str "Sainsbury" ++ apos :: str "s", str "Tesco", str "ASDA", str "Waitrose",
   str "Morrisons", str "Iceland", str "Aldi", str "Lidl", str "Co-op",
   str "Marks & Spencer", str "M&S", str "Ocado", str "Trolley.co.uk"]

/-- One extracted product record, field for field the dict built by
`_extract_product_info`. -/
structure ProductRecord where
  name : Str
  price : Str
  brand : Str
  size : Str
  store : Str
  url : Str
deriving DecidableEq, Repr

/-- The scraper's fixed base URL. -/
def trolleyBase : Str := str "https://www.trolley.co.uk"

/-- Characters allowed in a URL scheme (letters, digits, plus, hyphen,
dot), as recognised by `urllib.parse`. -/
def isSchemeChar (c : Nat) : Bool := isAlphaN c || isDigitN c || c == 43 || c == 45 || c == 46

/-- Whether a URL reference starts with a scheme (a letter-led run of
scheme characters ending at a colon). -/
def hasScheme (s : Str) : Bool :=
  match s with
  | c :: _ => isAlphaN c && ((s.dropWhile isSchemeChar).head? == some 58)
  | [] => false

/-- Model of `urllib.parse.urljoin` at the scraper's fixed base URL
(scheme https, netloc www.trolley.co.uk, empty path), covering the
reference shapes an href can take: empty, absolute with scheme,
network-relative, absolute path, query or fragment only, and relative. -/
def urljoinBase (href : Str) : Str :=
  if href.isEmpty then trolleyBase
  else if hasScheme href then href
  else if (str "//").isPrefixOf href then str "https:" ++ href
  else if href.head? == some 47 then trolleyBase ++ href
  else if href.head? == some 63 || href.head? == some 35 then trolleyBase ++ href
  else trolleyBase ++ 47 :: href

/-- `_extract_product_info`: the per-node field extraction pipeline.  A
node with no anchor, or with blank anchor text, yields no record (the
source returns None there). -/
def extractInfo (c : Container) : Option ProductRecord :=
  match c.anchor with
  | none => none
  | some a =>
    if a.text.isEmpty then none
    else
      let name0 := a.text
      let pm := searchPrice name0
      let price :=
        match pm with
        | some p => p
        | none => fallbackPrice c.priceTexts
      let name1 :=
        match pm with
        | some p => stripStr (name0.take ((findSub name0 p).getD (name0.length - 1)))
        | none => name0
      let sizeName : Str × Str :=
        match matchSize name1 with
        | some sz => (sz, stripStr (name1.drop sz.length))
        | none => ([], name1)
      let brandName : Str × Str :=
        match matchBrand sizeName.2 with
        | some b => (b, stripStr (sizeName.2.drop b.length))
        | none => ([], sizeName.2)
      let n1 := stripStr (brandName.2.dropWhile isDigitN)
      let n2 := stripStr ((n1.reverse.dropWhile isDigitN).reverse)
      let n3 := stripStr (collapseWs n2)
      some { name := n3, price := price, brand := brandName.1, size := sizeName.1,
             store := extractStoreName c, url := urljoinBase a.href }

/-- The store-filter acceptance test of `_extract_products`: the lowered
filter is a substring of the lowered store, or some mapping key whose value
lowers to the lowered store contains the lowered filter. -/
def keepFilter (lf ps : Str) : Bool :=
  containsSub ps lf ||
    storeMappings.any (fun kv => (lowerStr kv.2 == ps) && containsSub kv.1 lf)

/-- Whether a record passes the (optional) store filter: with no filter
every record is accepted, otherwise `keepFilter` on the lowered filter and
lowered store. -/
def keepRecord (filt : Option Str) (p : ProductRecord) : Bool :=
  match filt with
  | none => true
  | some f => keepFilter (lowerStr f) (lowerStr p.store)

/-- The container loop of `_extract_products` over the already-sliced
container list: extraction failures are skipped, filtered-out records are
skipped, and the loop stops once the remaining budget is exhausted by an
accepted record. -/
def goExtract (filt : Option Str) : Nat → List Container → List ProductRecord
  | _, [] => []
  | need, c :: cs =>
    match extractInfo c with
    | none => goExtract filt need cs
    | some p =>
      if keepRecord filt p then
        p :: (if need ≤ 1 then [] else goExtract filt (need - 1) cs)
      else goExtract filt need cs

/-- `_extract_products` after container location: iterate at most
`max_results * 3` containers, extract, filter, stop at `max_results`
accepted records. -/
def extractProducts (cs : List Container) (maxResults : Nat) (filt : Option Str) :
    List ProductRecord :=
  goExtract filt maxResults (cs.take (maxResults * 3))

/-- The selector cascade of `_extract_products`: the result set of the
first selector strategy with at least one match, else the empty list. -/
def locateContainers : List (List Container) → List Container
  | [] => []
  | s :: rest => if s.isEmpty then locateContainers rest else s

/-- A parsed search-results document, as the six selector strategies see
it: the list of containers each strategy would return, in strategy order. -/
structure DocumentModel where
  selects : List (List Container)
deriving DecidableEq, Repr

/-- The post-fetch pipeline of `search_products`: locate containers, then
extract, filter and cap. -/
def searchModel (doc : DocumentModel) (maxResults : Nat) (filt : Option Str) :
    List ProductRecord :=
  extractProducts (locateContainers doc.selects) maxResults filt

/-- Modelled from the spec: the price shape asserted by the claim, namely
the sentinel or a pound sign, one or more digits, a decimal point, and
exactly two digits.  Stated from the spec's words for comparison with what
the code produces. -/
def specPriceForm (p : Str) : Bool :=
  p == priceSentinel ||
    (match p with
     | c :: rest =>
       c == 163 &&
         (let ds := rest.takeWhile isDigitN
          decide (¬ ds.isEmpty) &&
            (match rest.drop ds.length with
             | d :: fs => d == 46 && fs.all isDigitN && (fs.length == 2)
             | [] => false))
     | [] => false)

/-- The price shape the code actually guarantees: a pound sign, one or
more digits, a decimal point, and one or more digits, to the end of the
string. -/
def priceShape (p : Str) : Bool :=
  (p.head? == some 163) &&
    (let rest := p.tail
     let ds := rest.takeWhile isDigitN
     let rest2 := rest.drop ds.length
     !ds.isEmpty && (rest2.head? == some 46) && !rest2.tail.isEmpty &&
       rest2.tail.all isDigitN)

/-- Modelled from the spec: a name begins with a capitalized word when its
first character is an upper-case ASCII letter.  Stated from the spec's
words for comparison with the code's case-insensitive matching. -/
def beginsWithCapitalizedWord (s : Str) : Bool :=
  match s with
  | c :: _ => decide (65 ≤ c ∧ c ≤ 90)
  | [] => false

/-- A container whose anchor text is exactly the worked example of the
spec (a div with one product anchor and no further sub-elements). -/
def exC2c : Container :=
  { anchor := some { text := str "800gHovisSeed Sensations Seven Seeds Medium Sliced Seeded Bread269£1.95£0.24 per 100g",
                     href := str "/product/bread" },
    priceTexts := [none, none, none],
    storeTexts := [none, none, none, none, none, none, none],
    imgAlt := none, attrValues := [],
    text := str "800gHovisSeed Sensations Seven Seeds Medium Sliced Seeded Bread269£1.95£0.24 per 100g" }

/-- A container whose anchor text is just a price: the whole name buffer is
consumed by price truncation, so the cleaned name comes out empty. -/
def exC1c : Container :=
  { anchor := some { text := str "£1.95", href := str "/p/1" },
    priceTexts := [none, none, none],
    storeTexts := [none, none, none, none, none, none, none],
    imgAlt := none, attrValues := [], text := str "£1.95" }

/-- A container whose anchor text carries a price with three decimal
digits. -/
def exC3c : Container :=
  { anchor := some { text := str "Bread£1.955", href := str "/p/3" },
    priceTexts := [none, none, none],
    storeTexts := [none, none, none, none, none, none, none],
    imgAlt := none, attrValues := [], text := str "Bread£1.955" }

/-- A container whose anchor text starts with two lower-case words. -/
def exC8c : Container :=
  { anchor := some { text := str "own brand loaf", href := str "/p/8" },
    priceTexts := [none, none, none],
    storeTexts := [none, none, none, none, none, none, none],
    imgAlt := none, attrValues := [], text := str "own brand loaf" }

/-- A container with a store-selector sub-element whose text names no known
retailer: the resolver title-cases it. -/
def exC9c : Container :=
  { anchor := some { text := str "x", href := str "/p/9" },
    priceTexts := [none, none, none],
    storeTexts := [some (str "Corner Shop"), none, none, none, none, none, none],
    imgAlt := none, attrValues := [], text := str "xCorner Shop" }

/-- A container with no anchor at all: extraction yields no record, and no
store signal is present anywhere. -/
def exFail : Container :=
  { anchor := none, priceTexts := [none, none, none],
    storeTexts := [none, none, none, none, none, none, none],
    imgAlt := none, attrValues := [], text := [] }

/-- A container whose visible text names Tesco. -/
def exC4c : Container :=
  { anchor := some { text := str "Cola", href := str "/tesco/cola" },
    priceTexts := [none, none, none],
    storeTexts := [none, none, none, none, none, none, none],
    imgAlt := none, attrValues := [], text := str "ColaTesco" }

/-- The record `extractInfo` produces for `exC4c`. -/
def exC4rec : ProductRecord :=
  { name := [], price := priceSentinel, brand := str "Cola", size := [],
    store := str "Tesco", url := trolleyBase ++ str "/tesco/cola" }

/-- A document whose first selector strategy finds the Tesco container. -/
def docC4 : DocumentModel := ⟨[[exC4c], [], [], [], [], []]⟩

/-- A document whose first selector strategy finds the price-only
container. -/
def docC1 : DocumentModel := ⟨[[exC1c], [], [], [], [], []]⟩

/-- A document whose first selector strategy finds the three-decimals
container. -/
def docC3 : DocumentModel := ⟨[[exC3c], [], [], [], [], []]⟩

/-- A document whose first selector strategy finds the unknown-store
container. -/
def docC9 : DocumentModel := ⟨[[exC9c], [], [], [], [], []]⟩

/-- A container whose anchor exists but has blank text. -/
def exBlank : Container :=
  { anchor := some { text := [], href := str "/x" },
    priceTexts := [none, none, none],
    storeTexts := [none, none, none, none, none, none, none],
    imgAlt := none, attrValues := [], text := [] }

/-- The record `extractInfo` produces for `exC3c`. -/
def exC3rec : ProductRecord :=
  { name := [], price := str "£1.955", brand := str "Bread", size := [],
    store := str "Trolley.co.uk", url := trolleyBase ++ str "/p/3" }

/-- A word whose head is letter-like in the sense of `twoAlphaHead`: the
first two characters are ASCII letters. -/
def twoAlphaHead : Str → Bool
  | a :: c :: _ => isAlphaN a && isAlphaN c
  | _ => false

theorem containsSub_iff {s pat : Str} : containsSub s pat = true ↔ pat <:+: s := by
  induction s with
  | nil => simp [containsSub, List.isEmpty_iff]
  | cons c t ih => simp [containsSub, List.infix_cons_iff, ih]

theorem infix_dropWhile_of_not_ws {pat s : Str} (hne : pat ≠ [])
    (hws : ∀ x ∈ pat, isWsN x = false) (h : pat <:+: s) :
    pat <:+: s.dropWhile isWsN := by
  induction s with
  | nil => rw [List.infix_nil] at h; exact absurd h hne
  | cons c t ih =>
    cases hc : isWsN c with
    | false => rw [List.dropWhile_cons, if_neg (by simp [hc])]; exact h
    | true =>
      rw [List.dropWhile_cons, if_pos (by simp [hc])]
      rcases List.infix_cons_iff.mp h with hp | hi
      · cases pat with
        | nil => exact absurd rfl hne
        | cons p ps =>
          rcases List.cons_prefix_cons.mp hp with ⟨hpc, -⟩
          subst hpc
          exact absurd hc (by simp [hws p (List.mem_cons_self p ps)])
      · exact ih hi

theorem containsSub_stripStr {s pat : Str} (hne : pat ≠ [])
    (hws : ∀ x ∈ pat, isWsN x = false) (h : containsSub s pat = true) :
    containsSub (stripStr s) pat = true := by
  rw [containsSub_iff] at h ⊢
  have h1 := infix_dropWhile_of_not_ws hne hws h
  have h2 : pat.reverse <:+: (s.dropWhile isWsN).reverse := List.reverse_infix.mpr h1
  have hne2 : pat.reverse ≠ [] := by simpa using hne
  have hws2 : ∀ x ∈ pat.reverse, isWsN x = false := fun x hx => hws x (List.mem_reverse.mp hx)
  have h3 := infix_dropWhile_of_not_ws hne2 hws2 h2
  have h4 := List.reverse_infix.mpr h3
  simpa [stripStr] using h4

theorem lowerN_lowerN (c : Nat) : lowerN (lowerN c) = lowerN c := by
  unfold lowerN; split_ifs <;> omega

theorem lowerN_upperN (c : Nat) : lowerN (upperN c) = lowerN c := by
  unfold lowerN upperN; split_ifs <;> omega

theorem isAlphaN_lowerN (c : Nat) : isAlphaN (lowerN c) = isAlphaN c := by
  rw [isAlphaN, isAlphaN, decide_eq_decide]
  unfold lowerN; split_ifs <;> omega

theorem lowerStr_pyTitleGo (b : Bool) (s : Str) : lowerStr (pyTitleGo b s) = lowerStr s := by
  induction s generalizing b with
  | nil => rfl
  | cons c cs ih =>
    simp only [pyTitleGo, lowerStr, List.map_cons]
    have h1 : lowerN (if isAlphaN c then (if b then lowerN c else upperN c) else c) = lowerN c := by
      cases hb : b <;> cases ha : isAlphaN c <;> simp [ha, lowerN_lowerN, lowerN_upperN]
    rw [h1]
    have h2 := ih (isAlphaN c)
    simp only [lowerStr] at h2
    rw [h2]

theorem lowerStr_pyTitle (s : Str) : lowerStr (pyTitle s) = lowerStr s :=
  lowerStr_pyTitleGo false s

theorem pyTitle_ne_nil {s : Str} (h : s ≠ []) : pyTitle s ≠ [] := by
  cases s with
  | nil => exact absurd rfl h
  | cons c cs => simp [pyTitle, pyTitleGo]

theorem takeWhile_append_all {p : Nat → Bool} {l : Str} {a : Nat} {r : Str}
    (hl : ∀ x ∈ l, p x = true) (ha : p a = false) :
    (l ++ a :: r).takeWhile p = l := by
  induction l with
  | nil => simp [List.takeWhile_cons, ha]
  | cons x xs ih =>
    have hx := hl x (List.mem_cons_self x xs)
    simp [List.takeWhile_cons, hx, ih (fun y hy => hl y (List.mem_cons_of_mem x hy))]

theorem priceShape_of_parts {ds fs : Str} (hds : ds ≠ []) (hfs : fs ≠ [])
    (hds2 : ∀ x ∈ ds, isDigitN x = true) (hfs2 : ∀ x ∈ fs, isDigitN x = true) :
    priceShape (163 :: ds ++ 46 :: fs) = true := by
  simp only [priceShape, List.cons_append, List.head?_cons, List.tail_cons]
  rw [takeWhile_append_all hds2 (by decide)]
  rw [List.drop_left ds (46 :: fs)]
  simp only [List.head?_cons, List.tail_cons, List.all_eq_true, List.isEmpty_iff]
  simp [hds, hfs]
  exact hfs2

theorem priceAt_shape {s p : Str} (h : priceAt s = some p) : priceShape p = true := by
  cases s with
  | nil => exact Option.noConfusion h
  | cons c rest =>
    simp only [priceAt] at h
    split_ifs at h with hc hds
    · split at h
      next d t hdrop =>
        split_ifs at h with hd hfs
        injection h with h
        subst h
        subst hc
        subst hd
        exact priceShape_of_parts (by simpa [List.isEmpty_iff] using hds)
          (by simpa [List.isEmpty_iff] using hfs)
          (fun x hx => List.mem_takeWhile_imp hx)
          (fun x hx => List.mem_takeWhile_imp hx)
      next hdrop => exact Option.noConfusion h

theorem searchAt_some {f : Str → Option Str} {s m : Str} (h : searchAt f s = some m) :
    ∃ t, f t = some m := by
  induction s with
  | nil => exact ⟨[], h⟩
  | cons c cs ih =>
    simp only [searchAt] at h
    cases hE : f (c :: cs) with
    | some m' => rw [hE] at h; exact ⟨c :: cs, hE.trans h⟩
    | none => rw [hE] at h; exact ih h

theorem searchPrice_shape {s p : Str} (h : searchPrice s = some p) : priceShape p = true := by
  obtain ⟨t, ht⟩ := searchAt_some h
  exact priceAt_shape ht

theorem fallbackPrice_shape (pts : List (Option Str)) :
    fallbackPrice pts = priceSentinel ∨ priceShape (fallbackPrice pts) = true := by
  induction pts with
  | nil => exact Or.inl rfl
  | cons o rest ih =>
    cases o with
    | none => simpa [fallbackPrice] using ih
    | some t =>
      simp only [fallbackPrice]
      cases hE : searchPrice t with
      | none => exact ih
      | some p => exact Or.inr (searchPrice_shape hE)

theorem lookupStoreKey_mem {l : Str} {m : List (Str × Str)} {v : Str}
    (h : lookupStoreKey l m = some v) : v ∈ m.map Prod.snd := by
  induction m with
  | nil => exact Option.noConfusion h
  | cons kv rest ih =>
    simp only [lookupStoreKey] at h
    split_ifs at h with hc
    · injection h with h; simp [← h]
    · simp [ih h]

theorem lookupStoreKey_none {l : Str} {m : List (Str × Str)}
    (h : lookupStoreKey l m = none) : ∀ kv ∈ m, containsSub l kv.1 = false := by
  induction m with
  | nil => intro kv hkv; cases hkv
  | cons kv0 rest ih =>
    simp only [lookupStoreKey] at h
    split_ifs at h with hc
    intro kv hkv
    rcases List.mem_cons.mp hkv with rfl | hm
    · simpa using hc
    · exact ih h kv hm

set_option maxHeartbeats 2000000 in
theorem mapValues_sub_known : ∀ x ∈ storeMappings.map Prod.snd, x ∈ knownStoreNames := by
  decide

set_option maxHeartbeats 2000000 in
theorem dispatchStoreFound_mem {f s : Str} (h : dispatchStoreFound f = some s) :
    s ∈ knownStoreNames := by
  unfold dispatchStoreFound at h
  split_ifs at h <;> (injection h with h; subst h; decide)

theorem method1Go_mem {lt : Str} {ps : List (Str → Option Str)} {s : Str}
    (h : method1Go lt ps = some s) : s ∈ knownStoreNames := by
  induction ps with
  | nil => exact Option.noConfusion h
  | cons p rest ih =>
    simp only [method1Go] at h
    cases hE : (p lt).bind dispatchStoreFound with
    | some s' =>
      simp only [hE] at h
      obtain ⟨m, -, hd⟩ := Option.bind_eq_some.mp hE
      injection h with h
      subst h
      exact dispatchStoreFound_mem hd
    | none =>
      simp only [hE] at h
      exact ih h

theorem method2_mem {sts : List (Option Str)} {s : Str} (h : method2 sts = some s) :
    ∃ t, some t ∈ sts ∧ t ≠ [] ∧ s = normalizeStoreName t := by
  induction sts with
  | nil => exact Option.noConfusion h
  | cons o rest ih =>
    cases o with
    | none =>
      simp only [method2] at h
      obtain ⟨t, ht, h2, h3⟩ := ih h
      exact ⟨t, List.mem_cons_of_mem _ ht, h2, h3⟩
    | some t =>
      simp only [method2] at h
      split_ifs at h with hE
      · obtain ⟨t', ht, h2, h3⟩ := ih h
        exact ⟨t', List.mem_cons_of_mem _ ht, h2, h3⟩
      · injection h with h
        refine ⟨t, List.mem_cons_self _ _, ?_, h.symm⟩
        intro hnil
        exact hE (by simp [hnil, List.isEmpty_iff])

theorem normalizeStoreName_cases (t : Str) :
    normalizeStoreName t ∈ knownStoreNames ∨
      (lookupStoreKey (stripStr (lowerStr t)) storeMappings = none ∧
        normalizeStoreName t = pyTitle t) := by
  unfold normalizeStoreName
  cases hE : lookupStoreKey (stripStr (lowerStr t)) storeMappings with
  | some v => exact Or.inl (mapValues_sub_known v (lookupStoreKey_mem hE))
  | none => exact Or.inr ⟨rfl, rfl⟩

theorem method3_mem {a : Option Anchor} {s : Str} (h : method3 a = some s) :
    s ∈ knownStoreNames := by
  cases a with
  | none => exact Option.noConfusion h
  | some a0 =>
    simp only [method3] at h
    split_ifs at h
    exact mapValues_sub_known s (lookupStoreKey_mem h)

theorem method4_mem {alt : Option Str} {s : Str} (h : method4 alt = some s) :
    s ∈ knownStoreNames := by
  cases alt with
  | none => exact Option.noConfusion h
  | some a0 => exact mapValues_sub_known s (lookupStoreKey_mem h)

theorem method5_mem {avs : List Str} {s : Str} (h : method5 avs = some s) :
    s ∈ knownStoreNames := by
  induction avs with
  | nil => exact Option.noConfusion h
  | cons v rest ih =>
    simp only [method5] at h
    cases hE : lookupStoreKey (lowerStr v) storeMappings with
    | some s' =>
      simp only [hE] at h
      injection h with h
      subst h
      exact mapValues_sub_known _ (lookupStoreKey_mem hE)
    | none =>
      simp only [hE] at h
      exact ih h

theorem method6_mem {t s : Str} (h : method6 t = some s) : s ∈ knownStoreNames :=
  mapValues_sub_known s (lookupStoreKey_mem h)

theorem extractStoreName_m1 {c : Container} {s : Str} (h : method1 c.text = some s) :
    extractStoreName c = s := by
  unfold extractStoreName; rw [h]

theorem extractStoreName_m2 {c : Container} {s : Str} (h1 : method1 c.text = none)
    (h2 : method2 c.storeTexts = some s) : extractStoreName c = s := by
  unfold extractStoreName; rw [h1, h2]

theorem extractStoreName_m3 {c : Container} {s : Str} (h1 : method1 c.text = none)
    (h2 : method2 c.storeTexts = none) (h3 : method3 c.anchor = some s) :
    extractStoreName c = s := by
  unfold extractStoreName; rw [h1, h2, h3]

theorem extractStoreName_m4 {c : Container} {s : Str} (h1 : method1 c.text = none)
    (h2 : method2 c.storeTexts = none) (h3 : method3 c.anchor = none)
    (h4 : method4 c.imgAlt = some s) : extractStoreName c = s := by
  unfold extractStoreName; rw [h1, h2, h3, h4]

theorem extractStoreName_m5 {c : Container} {s : Str} (h1 : method1 c.text = none)
    (h2 : method2 c.storeTexts = none) (h3 : method3 c.anchor = none)
    (h4 : method4 c.imgAlt = none) (h5 : method5 c.attrValues = some s) :
    extractStoreName c = s := by
  unfold extractStoreName; rw [h1, h2, h3, h4, h5]

theorem extractStoreName_m6 {c : Container} {s : Str} (h1 : method1 c.text = none)
    (h2 : method2 c.storeTexts = none) (h3 : method3 c.anchor = none)
    (h4 : method4 c.imgAlt = none) (h5 : method5 c.attrValues = none)
    (h6 : method6 c.text = some s) : extractStoreName c = s := by
  unfold extractStoreName; rw [h1, h2, h3, h4, h5, h6]

theorem extractStoreName_fallback {c : Container} (h1 : method1 c.text = none)
    (h2 : method2 c.storeTexts = none) (h3 : method3 c.anchor = none)
    (h4 : method4 c.imgAlt = none) (h5 : method5 c.attrValues = none)
    (h6 : method6 c.text = none) : extractStoreName c = str "Trolley.co.uk" := by
  unfold extractStoreName; rw [h1, h2, h3, h4, h5, h6]

theorem extractStoreName_cases (c : Container) :
    extractStoreName c ∈ knownStoreNames ∨
      ∃ t, some t ∈ c.storeTexts ∧ t ≠ [] ∧
        lookupStoreKey (stripStr (lowerStr t)) storeMappings = none ∧
        extractStoreName c = pyTitle t := by
  cases h1 : method1 c.text with
  | some s => rw [extractStoreName_m1 h1]; exact Or.inl (method1Go_mem h1)
  | none =>
  cases h2 : method2 c.storeTexts with
  | some s =>
    rw [extractStoreName_m2 h1 h2]
    obtain ⟨t, ht, hne, hnorm⟩ := method2_mem h2
    rcases normalizeStoreName_cases t with hk | ⟨hl, hp⟩
    · exact Or.inl (hnorm ▸ hk)
    · exact Or.inr ⟨t, ht, hne, hl, by rw [hnorm, hp]⟩
  | none =>
  cases h3 : method3 c.anchor with
  | some s => rw [extractStoreName_m3 h1 h2 h3]; exact Or.inl (method3_mem h3)
  | none =>
  cases h4 : method4 c.imgAlt with
  | some s => rw [extractStoreName_m4 h1 h2 h3 h4]; exact Or.inl (method4_mem h4)
  | none =>
  cases h5 : method5 c.attrValues with
  | some s => rw [extractStoreName_m5 h1 h2 h3 h4 h5]; exact Or.inl (method5_mem h5)
  | none =>
  cases h6 : method6 c.text with
  | some s => rw [extractStoreName_m6 h1 h2 h3 h4 h5 h6]; exact Or.inl (method6_mem h6)
  | none =>
    rw [extractStoreName_fallback h1 h2 h3 h4 h5 h6]
    exact Or.inl (by decide)

theorem extractStoreName_ne_nil (c : Container) : extractStoreName c ≠ [] := by
  rcases extractStoreName_cases c with hk | ⟨t, -, hne, -, hp⟩
  · have hall : ∀ x ∈ knownStoreNames, x ≠ ([] : Str) := by decide
    exact hall _ hk
  · rw [hp]; exact pyTitle_ne_nil hne

set_option maxHeartbeats 2000000 in
theorem known_tesco {s : Str} (hk : s ∈ knownStoreNames)
    (hc : containsSub (lowerStr s) (str "tesco") = true) : s = str "Tesco" := by
  have hall : ∀ x ∈ knownStoreNames,
      containsSub (lowerStr x) (str "tesco") = true → x = str "Tesco" := by decide
  exact hall s hk hc

theorem store_tesco {c : Container}
    (h : containsSub (lowerStr (extractStoreName c)) (str "tesco") = true) :
    extractStoreName c = str "Tesco" := by
  rcases extractStoreName_cases c with hk | ⟨t, -, -, hl, hp⟩
  · exact known_tesco hk h
  · exfalso
    rw [hp, lowerStr_pyTitle] at h
    have h2 := containsSub_stripStr (by decide) (by decide) h
    have h3 := lookupStoreKey_none hl (str "tesco", str "Tesco") (by decide)
    rw [h2] at h3
    exact Bool.noConfusion h3

theorem extractInfo_none_of_no_anchor {c : Container} (h : c.anchor = none) :
    extractInfo c = none := by
  simp [extractInfo, h]

theorem extractInfo_none_of_blank {c : Container} {a : Anchor} (hA : c.anchor = some a)
    (hT : a.text = []) : extractInfo c = none := by
  simp [extractInfo, hA, hT]

theorem extractInfo_fields {c : Container} {a : Anchor} {r : ProductRecord}
    (hA : c.anchor = some a) (h : extractInfo c = some r) :
    r.store = extractStoreName c ∧ r.url = urljoinBase a.href ∧
      (∀ p, searchPrice a.text = some p → r.price = p) ∧
      (searchPrice a.text = none → r.price = fallbackPrice c.priceTexts) := by
  cases hT : a.text.isEmpty with
  | true =>
    rw [extractInfo_none_of_blank hA (List.isEmpty_iff.mp hT)] at h
    exact absurd h (by simp)
  | false =>
    simp only [extractInfo, hA, hT, Bool.false_eq_true, if_false] at h
    injection h with h
    subst h
    refine ⟨rfl, rfl, ?_, ?_⟩
    · intro p hp; simp only [hp]
    · intro hp; simp only [hp]

theorem extractInfo_anchor_ne_blank {c : Container} {r : ProductRecord}
    (h : extractInfo c = some r) : ∃ a, c.anchor = some a ∧ a.text ≠ [] := by
  cases hA : c.anchor with
  | none => rw [extractInfo_none_of_no_anchor hA] at h; exact absurd h (by simp)
  | some a =>
    refine ⟨a, rfl, ?_⟩
    intro hT
    rw [extractInfo_none_of_blank hA hT] at h
    exact absurd h (by simp)

theorem urljoinBase_ne_nil (href : Str) : urljoinBase href ≠ [] := by
  unfold urljoinBase
  split_ifs with h1 h2 h3 h4 h5
  · decide
  · intro hnil
    rw [hnil] at h2
    exact absurd h2 (by decide)
  · simp [str]
  · simp [trolleyBase, str]
  · simp [trolleyBase, str]
  · simp [trolleyBase, str]

theorem mem_goExtract {filt : Option Str} {n : Nat} {cs : List Container}
    {r : ProductRecord} (h : r ∈ goExtract filt n cs) :
    ∃ c ∈ cs, extractInfo c = some r ∧ keepRecord filt r = true := by
  induction cs generalizing n with
  | nil => simp [goExtract] at h
  | cons c cs ih =>
    simp only [goExtract] at h
    cases hE : extractInfo c with
    | none =>
      simp only [hE] at h
      obtain ⟨c', hc', h2⟩ := ih h
      exact ⟨c', List.mem_cons_of_mem _ hc', h2⟩
    | some p =>
      simp only [hE] at h
      split at h
      · rcases List.mem_cons.mp h with rfl | htl
        · next hcond => exact ⟨c, List.mem_cons_self _ _, hE, hcond⟩
        · split at htl
          · exact absurd htl (by simp)
          · obtain ⟨c', hc', h2⟩ := ih htl
            exact ⟨c', List.mem_cons_of_mem _ hc', h2⟩
      · obtain ⟨c', hc', h2⟩ := ih h
        exact ⟨c', List.mem_cons_of_mem _ hc', h2⟩

theorem goExtract_length (filt : Option Str) : ∀ {n : Nat} {cs : List Container},
    1 ≤ n → (goExtract filt n cs).length ≤ n := by
  intro n cs
  induction cs generalizing n with
  | nil => intro _; simp [goExtract]
  | cons c cs ih =>
    intro hn
    simp only [goExtract]
    split
    · exact ih hn
    next p hE =>
      by_cases hk : keepRecord filt p = true
      · rw [if_pos hk]
        by_cases h1 : n ≤ 1
        · rw [if_pos h1]
          simp only [List.length_cons, List.length_nil]
          omega
        · rw [if_neg h1, List.length_cons]
          have := ih (n := n - 1) (by omega)
          omega
      · rw [if_neg hk]
        exact ih hn

theorem goExtract_skip {filt : Option Str} {n : Nat} {c : Container}
    {cs : List Container} (h : extractInfo c = none) :
    goExtract filt n (c :: cs) = goExtract filt n cs := by
  simp [goExtract, h]

theorem extractProducts_take (cs : List Container) (N : Nat) (filt : Option Str) :
    extractProducts cs N filt = extractProducts (cs.take (N * 3)) N filt := by
  unfold extractProducts
  rw [List.take_take, min_self]

theorem extractProducts_length (cs : List Container) (N : Nat) (filt : Option Str) :
    (extractProducts cs N filt).length ≤ N := by
  cases N with
  | zero => simp [extractProducts, goExtract]
  | succ n => exact goExtract_length filt (by omega)

set_option maxHeartbeats 1000000 in
theorem keepFilter_tesco {ps : Str} (h : keepFilter (str "tesco") ps = true) :
    containsSub ps (str "tesco") = true := by
  unfold keepFilter at h
  rcases Bool.or_eq_true_iff.mp h with h1 | h2
  · exact h1
  · obtain ⟨kv, hkv, hp⟩ := List.any_eq_true.mp h2
    rcases Bool.and_eq_true_iff.mp hp with ⟨hv, hcont⟩
    have hkey : ∀ kv2 ∈ storeMappings,
        containsSub kv2.1 (str "tesco") = true → kv2 = (str "tesco", str "Tesco") := by
      decide
    have hkv2 := hkey kv hkv hcont
    rw [hkv2] at hv
    have hps : ps = lowerStr (str "Tesco") := (eq_of_beq hv).symm
    rw [hps]
    decide

theorem matchBrandLit_letters {lits : List Str} {s b : Str}
    (hlits : ∀ l ∈ lits, twoAlphaHead l = true)
    (h : matchBrandLit lits s = some b) : 2 ≤ (s.takeWhile isAlphaN).length := by
  induction lits with
  | nil => exact Option.noConfusion h
  | cons lit rest ih =>
    simp only [matchBrandLit] at h
    split_ifs at h with hp
    · have h2 := hlits lit (List.mem_cons_self _ _)
      cases lit with
      | nil => exact absurd h2 (by simp [twoAlphaHead])
      | cons a t =>
        cases t with
        | nil => exact absurd h2 (by simp [twoAlphaHead])
        | cons b2 r =>
          rcases Bool.and_eq_true_iff.mp (by simpa [twoAlphaHead] using h2) with ⟨ha, hb⟩
          rw [List.isPrefixOf_iff_prefix] at hp
          simp only [lowerStr, List.map_cons] at hp
          cases s with
          | nil => simp [List.prefix_nil] at hp
          | cons x t1 =>
            rcases List.cons_prefix_cons.mp hp with ⟨hax, hp2⟩
            cases t1 with
            | nil => simp [List.prefix_nil] at hp2
            | cons y t2 =>
              rcases List.cons_prefix_cons.mp (by simpa using hp2) with ⟨hby, -⟩
              have hx : isAlphaN x = true := by
                rw [← isAlphaN_lowerN x, ← hax, isAlphaN_lowerN]; exact ha
              have hy : isAlphaN y = true := by
                rw [← isAlphaN_lowerN y, ← hby, isAlphaN_lowerN]; exact hb
              rw [List.takeWhile_cons, hx]
              simp only [if_true]
              rw [List.takeWhile_cons, hy]
              simp only [if_true, List.length_cons]
              omega
    · exact ih (fun l hl => hlits l (List.mem_cons_of_mem _ hl)) h

theorem matchBrandLit_ne_nil {lits : List Str} {s b : Str}
    (hlits : ∀ l ∈ lits, l ≠ []) (h : matchBrandLit lits s = some b) : b ≠ [] := by
  induction lits with
  | nil => exact Option.noConfusion h
  | cons lit rest ih =>
    simp only [matchBrandLit] at h
    split_ifs at h with hp
    · injection h with h
      subst h
      have hlit := hlits lit (List.mem_cons_self _ _)
      cases lit with
      | nil => exact absurd rfl hlit
      | cons a u =>
        rw [List.isPrefixOf_iff_prefix] at hp
        cases s with
        | nil => simp [lowerStr, List.prefix_nil] at hp
        | cons x t => simp [List.length_cons, List.take_succ_cons]
    · exact ih (fun l hl => hlits l (List.mem_cons_of_mem _ hl)) h

/-- C1 (counterexample): the no-blank-fields invariant fails on the code.
A located container whose anchor text is just a price yields an emitted
record whose cleaned name is empty: the blank-name check runs on the raw
anchor text only, before price truncation and cleanup empty the name. -/
theorem c1_counterexample :
    (searchModel docC1 5 none).map ProductRecord.name = [([] : Str)] := by
  decide

/-- C1 (amended): every record emitted by the search pipeline has a
non-empty url, and a node with no anchor, or with blank anchor text, is
dropped; the cleaned name, however, may be empty. -/
theorem c1_amended :
    (∀ (doc : DocumentModel) (N : Nat) (filt : Option Str) (r : ProductRecord),
        r ∈ searchModel doc N filt → r.url ≠ []) ∧
    (∀ c : Container, c.anchor = none → extractInfo c = none) ∧
    (∀ (c : Container) (a : Anchor), c.anchor = some a → a.text = [] →
        extractInfo c = none) := by
  refine ⟨?_, ?_, ?_⟩
  · intro doc N filt r hr
    obtain ⟨c, -, hE, -⟩ := mem_goExtract hr
    obtain ⟨a, hA, -⟩ := extractInfo_anchor_ne_blank hE
    obtain ⟨-, hurl, -, -⟩ := extractInfo_fields hA hE
    rw [hurl]
    exact urljoinBase_ne_nil a.href
  · exact fun c h => extractInfo_none_of_no_anchor h
  · exact fun c a hA hT => extractInfo_none_of_blank hA hT

/-- C1 witness: the amended claim applied to concrete inputs. -/
theorem c1_amended_witness :
    exC4rec.url ≠ [] ∧ extractInfo exFail = none ∧ extractInfo exBlank = none :=
  ⟨c1_amended.1 docC4 2 (some (str "tesco")) exC4rec (by decide),
   c1_amended.2.1 exFail (by decide),
   c1_amended.2.2 exBlank { text := [], href := str "/x" } (by decide) rfl⟩

/-- C2: on the spec's worked example the Field Extractor produces price
£1.95, size 800g, brand Hovis, and a cleaned name containing the expected
bread name with no leading or trailing digit. -/
theorem c2_worked_example :
    (extractInfo exC2c).map ProductRecord.price = some (str "£1.95") ∧
    (extractInfo exC2c).map ProductRecord.size = some (str "800g") ∧
    (extractInfo exC2c).map ProductRecord.brand = some (str "Hovis") ∧
    (extractInfo exC2c).map
        (fun r => containsSub r.name
          (str "Seed Sensations Seven Seeds Medium Sliced Seeded Bread")) = some true ∧
    (extractInfo exC2c).map (fun r => (r.name.take 1).any isDigitN) = some false ∧
    (extractInfo exC2c).map (fun r => (r.name.reverse.take 1).any isDigitN) = some false := by
  decide

/-- C3 (counterexample): the emitted price is not always the sentinel or a
two-decimal pound amount: a node whose anchor text carries a three-decimal
price emits that price verbatim, because the regex accepts one or more
decimal digits. -/
theorem c3_counterexample :
    (searchModel docC3 5 none).map ProductRecord.price = [str "£1.955"] ∧
      specPriceForm (str "£1.955") = false := by
  decide

/-- C3 (amended): every emitted price is the sentinel or of the shape pound
sign, one or more digits, a decimal point, and one or more digits; the
pattern is searched in the anchor-text name buffer first, with the
price-flavoured sub-elements consulted only when that search fails. -/
theorem c3_amended :
    ∀ (c : Container) (a : Anchor) (r : ProductRecord), c.anchor = some a →
      extractInfo c = some r →
      (r.price = priceSentinel ∨ priceShape r.price = true) ∧
      (∀ p, searchPrice a.text = some p → r.price = p) ∧
      (searchPrice a.text = none → r.price = fallbackPrice c.priceTexts) := by
  intro c a r hA h
  obtain ⟨-, -, hp1, hp2⟩ := extractInfo_fields hA h
  refine ⟨?_, hp1, hp2⟩
  cases hS : searchPrice a.text with
  | some p =>
    right
    rw [hp1 p hS]
    exact searchPrice_shape hS
  | none =>
    rw [hp2 hS]
    exact fallbackPrice_shape c.priceTexts

/-- C3 witness: the amended claim applied to a concrete container. -/
theorem c3_amended_witness :
    exC3rec.price = priceSentinel ∨ priceShape exC3rec.price = true :=
  (c3_amended exC3c { text := str "Bread£1.955", href := str "/p/3" } exC3rec rfl
    (by decide)).1

/-- C4: with the store filter tesco, every emitted record's store is
exactly Tesco: the filter accepts a record only when tesco is a substring
of the lowered resolved store (the catalog cross-check adds nothing for
this filter), and the only store the resolver can produce whose lowering
contains tesco is Tesco itself. -/
theorem c4_store_filter_tesco :
    ∀ (doc : DocumentModel) (N : Nat) (r : ProductRecord),
      r ∈ searchModel doc N (some (str "tesco")) → r.store = str "Tesco" := by
  intro doc N r hr
  obtain ⟨c, -, hE, hk⟩ := mem_goExtract hr
  obtain ⟨a, hA, -⟩ := extractInfo_anchor_ne_blank hE
  obtain ⟨hstore, -, -, -⟩ := extractInfo_fields hA hE
  have hk2 : keepFilter (lowerStr (str "tesco")) (lowerStr r.store) = true := hk
  have hlow : lowerStr (str "tesco") = str "tesco" := by decide
  rw [hlow] at hk2
  have hcont := keepFilter_tesco hk2
  rw [hstore] at hcont ⊢
  exact store_tesco hcont

/-- C4 witness: the filter theorem applied to a concrete document. -/
theorem c4_witness : exC4rec.store = str "Tesco" :=
  c4_store_filter_tesco docC4 2 exC4rec (by decide)

/-- C5: the search returns at most max-results records whatever the
document, and it only ever consumes the first max-results-times-three
located containers; it is total, so a low yield (including zero records)
is returned, not an error. -/
theorem c5_cap_and_window :
    ∀ (doc : DocumentModel) (N : Nat) (filt : Option Str),
      (searchModel doc N filt).length ≤ N ∧
      searchModel doc N filt =
        extractProducts ((locateContainers doc.selects).take (N * 3)) N filt := by
  intro doc N filt
  exact ⟨extractProducts_length _ _ _, extractProducts_take _ _ _⟩

/-- C6: the Store Resolver is total and never returns an empty string, and
when all six lookup methods fail it returns exactly the aggregator
fallback name. -/
theorem c6_store_resolver_total :
    (∀ c : Container, extractStoreName c ≠ []) ∧
    (∀ c : Container, method1 c.text = none → method2 c.storeTexts = none →
        method3 c.anchor = none → method4 c.imgAlt = none →
        method5 c.attrValues = none → method6 c.text = none →
        extractStoreName c = str "Trolley.co.uk") :=
  ⟨extractStoreName_ne_nil,
   fun _ h1 h2 h3 h4 h5 h6 => extractStoreName_fallback h1 h2 h3 h4 h5 h6⟩

/-- C6 witness: the resolver contract applied to a signal-free container. -/
theorem c6_witness :
    extractStoreName exFail = str "Trolley.co.uk" ∧ extractStoreName exFail ≠ [] :=
  ⟨c6_store_resolver_total.2 exFail (by decide) (by decide) (by decide) (by decide)
      (by decide) (by decide),
   c6_store_resolver_total.1 exFail⟩

/-- C7: the Container Locator returns the result set of the first selector
strategy with at least one match, independent of every later strategy, and
returns the empty sequence when no strategy matches. -/
theorem c7_locator_first_match :
    (∀ (pre : List (List Container)) (l : List Container) (rest : List (List Container)),
        (∀ x ∈ pre, x = []) → l ≠ [] → locateContainers (pre ++ l :: rest) = l) ∧
    (∀ ls : List (List Container), (∀ x ∈ ls, x = []) → locateContainers ls = []) := by
  constructor
  · intro pre l rest hpre hl
    induction pre with
    | nil =>
      simp only [List.nil_append, locateContainers]
      rw [if_neg (by simp [List.isEmpty_iff, hl])]
    | cons x xs ih =>
      have hx : x = [] := hpre x (List.mem_cons_self _ _)
      subst hx
      simp only [List.cons_append, locateContainers, List.isEmpty_nil, if_true]
      exact ih (fun y hy => hpre y (List.mem_cons_of_mem _ hy))
  · intro ls hls
    induction ls with
    | nil => rfl
    | cons x xs ih =>
      have hx : x = [] := hls x (List.mem_cons_self _ _)
      subst hx
      simp only [locateContainers, List.isEmpty_nil, if_true]
      exact ih (fun y hy => hls y (List.mem_cons_of_mem _ hy))

/-- C7 witness: the locator contract applied to concrete strategy results. -/
theorem c7_witness :
    locateContainers [[], [exC4c], [exC1c]] = [exC4c] ∧
      locateContainers ([[], []] : List (List Container)) = [] :=
  ⟨c7_locator_first_match.1 [[]] [exC4c] [[exC1c]] (by decide) (by decide),
   c7_locator_first_match.2 [[], []] (by decide)⟩

/-- C8 (counterexample): the generic brand fallback is applied with
case-insensitive matching, so a name that does not begin with a
capitalized word still yields a non-empty brand of its first two words. -/
theorem c8_counterexample :
    beginsWithCapitalizedWord (str "own brand loaf") = false ∧
      (extractInfo exC8c).map ProductRecord.brand = some (str "own brand") := by
  decide

/-- C8 (amended): the known-brand literal list is tested first in its
given order and the generic fallback applies only when no literal matches;
because the generic pattern is matched case-insensitively it captures one
or two leading words of letters of any case, and the brand comes out empty
exactly when the name does not begin with a word of at least two letters:
no such head gives no brand match, and such a head guarantees a non-empty
extracted brand. -/
theorem c8_amended :
    (∀ s b, matchBrandLit brandLiterals s = some b → matchBrand s = some b) ∧
    (∀ s, matchBrandLit brandLiterals s = none → matchBrand s = matchBrandGeneric s) ∧
    (∀ s : Str, (s.takeWhile isAlphaN).length < 2 → matchBrand s = none) ∧
    (∀ s : Str, 2 ≤ (s.takeWhile isAlphaN).length → (matchBrand s).getD [] ≠ []) := by
  refine ⟨?_, ?_, ?_, ?_⟩
  · intro s b h
    unfold matchBrand
    rw [h]
  · intro s h
    unfold matchBrand
    rw [h]
  · intro s h
    unfold matchBrand
    cases hL : matchBrandLit brandLiterals s with
    | some b =>
      exfalso
      have := matchBrandLit_letters (by decide) hL
      omega
    | none =>
      show matchBrandGeneric s = none
      unfold matchBrandGeneric
      rw [if_pos h]
  · intro s h
    have hw1 : s.takeWhile isAlphaN ≠ [] := by
      intro hnil
      rw [hnil] at h
      simp at h
    unfold matchBrand
    cases hL : matchBrandLit brandLiterals s with
    | some b =>
      have hne := matchBrandLit_ne_nil (by decide) hL
      show (some b).getD [] ≠ []
      simpa using hne
    | none =>
      show (matchBrandGeneric s).getD [] ≠ []
      unfold matchBrandGeneric
      rw [if_neg (by omega)]
      simp only []
      split_ifs
      · simpa using hw1
      · simpa using hw1
      · simp only [Option.getD_some]
        intro hnil
        have h1 := (List.append_eq_nil.mp hnil).1
        exact hw1 (List.append_eq_nil.mp h1).1

/-- C8 witness: the amended claim applied to concrete names, exercising
the literal path, the too-short path, and the non-empty-brand guarantee. -/
theorem c8_amended_witness :
    matchBrand (str "HovisX") = some (str "Hovis") ∧ matchBrand [53] = none ∧
      (matchBrand (str "own brand loaf")).getD [] ≠ [] :=
  ⟨c8_amended.1 (str "HovisX") (str "Hovis") (by decide),
   c8_amended.2.2.1 [53] (by decide),
   c8_amended.2.2.2 (str "own brand loaf") (by decide)⟩

/-- C9 (counterexample): the store field is not drawn from a fixed finite
set: a store-selector sub-element with unrecognised text is title-cased
and emitted as the store verbatim. -/
theorem c9_counterexample :
    (searchModel docC9 1 none).map ProductRecord.store = [str "Corner Shop"] ∧
      (str "Corner Shop") ∉ knownStoreNames := by
  decide

/-- C9 (amended): the resolved store is either one of the known canonical
retailer names (including the aggregator fallback), or the title-cased
text of one of the node's non-empty store-selector sub-elements. -/
theorem c9_amended :
    ∀ c : Container,
      extractStoreName c ∈ knownStoreNames ∨
        ∃ t, some t ∈ c.storeTexts ∧ t ≠ [] ∧ extractStoreName c = pyTitle t := by
  intro c
  rcases extractStoreName_cases c with hk | ⟨t, ht, hne, -, hp⟩
  · exact Or.inl hk
  · exact Or.inr ⟨t, ht, hne, hp⟩

/-- C10: a per-node extraction failure (a node for which `extractInfo`
yields no record, the embedding of the source's caught per-node exception
returning None) is swallowed by the orchestrator loop, which continues
with the remaining containers unchanged. -/
theorem c10_per_node_failure_skipped :
    ∀ (filt : Option Str) (n : Nat) (c : Container) (cs : List Container),
      extractInfo c = none → goExtract filt n (c :: cs) = goExtract filt n cs :=
  fun _ _ _ _ h => goExtract_skip h

/-- C10 witness: a failing node in front of a good node changes nothing. -/
theorem c10_witness :
    goExtract none 3 [exFail, exC4c] = goExtract none 3 [exC4c] :=
  c10_per_node_failure_skipped none 3 exFail [exC4c] (by decide)
